import Mathlib

/-
Verification development for the cinder-ai-model recommendation engine.

The backend recommendation engine (`backend/recommendation_engine.py`,
`backend/api.py`) is not present in this source snapshot; only its
documentation (README algorithm description, HYPERPARAMETERS.md), its
integration tests, and the React frontend are.  The engine components are
therefore modelled from the specification, while the frontend behaviour
(rating buttons, keyboard handlers, similarity display) is embedded
directly from `frontend/src/App.jsx` and
`frontend/src/components/ProductDisplay.jsx`.

Numeric vectors are embedded as lists of rationals; the similarity
transform `1 / (1 + distance)` over Euclidean distance is embedded over
the reals (the Euclidean distance of rational vectors is the real square
root of the rational squared distance).
-/

namespace Cinder

/-- Product record of the catalog: id, fixed-length embedding, and metadata,
per the data model (README "processed_data.json" product metadata). -/
structure Product where
  id : String
  embedding : List ℚ
  title : String
  color : String
  category : String
  price : String
  image_href : String
deriving DecidableEq, Repr

/-- A single recorded (product, rating) feedback event of one user. -/
structure InteractionEvent where
  product_id : String
  rating : ℤ
deriving DecidableEq, Repr

/-- Per-user state: the ordered event history together with the derived
set of already-rated product ids. -/
structure UserProfile where
  events : List InteractionEvent
  rated_ids : List String
deriving DecidableEq, Repr

/-- Componentwise sum of two vectors. -/
def vadd (a b : List ℚ) : List ℚ := List.zipWith (· + ·) a b

/-- Scalar multiple of a vector. -/
def vscale (c : ℚ) (v : List ℚ) : List ℚ := v.map (fun x => c * x)

/-- The zero vector of dimension `d`. -/
def vzero (d : Nat) : List ℚ := List.replicate d 0

/-- Modelled from the spec: the signed weight a rating contributes to the
preference vector, `weight = (rating - 3) / 2.0` (README algorithm
"Convert rating to weight: (rating - 3) / 2.0"; recommendation_engine.py is
not in the snapshot). -/
def ratingWeight (r : ℤ) : ℚ := ((r : ℚ) - 3) / 2

/-- Look up the embedding of a product id in the catalog (first match in
catalog order). -/
def lookupEmbedding (catalog : List Product) (pid : String) : Option (List ℚ) :=
  (catalog.find? (fun p => p.id == pid)).map Product.embedding

/-- Modelled from the spec: one step of the preference-vector loop of
`UserInteractionTracker.compute_preference_vector` (README: "Multiply
embedding by weight; Sum weighted embeddings"), accumulating the weighted
sum and the total absolute weight.  Events whose product id does not
resolve are skipped. -/
def prefStep (catalog : List Product) (acc : List ℚ × ℚ) (e : InteractionEvent) :
    List ℚ × ℚ :=
  match lookupEmbedding catalog e.product_id with
  | none => acc
  | some emb =>
      (vadd acc.1 (vscale (ratingWeight e.rating) emb), acc.2 + |ratingWeight e.rating|)

/-- Modelled from the spec: `compute_preference_vector` (README algorithm:
"Sum weighted embeddings; Normalize by total absolute weights");
`recommendation_engine.py` is not in the snapshot.  Returns `none` when the
total absolute weight is zero — the cold-start signal. -/
def compute_preference_vector (D : Nat) (catalog : List Product)
    (events : List InteractionEvent) : Option (List ℚ) :=
  let r := events.foldl (prefStep catalog) (vzero D, 0)
  if r.2 = 0 then none else some (vscale (1 / r.2) r.1)

/-- The spec's closed-form weighted sum `Σ (weight_i × embedding_i)`,
written as a fold of the mapped per-event contributions. -/
def specWeightedSum (D : Nat) (catalog : List Product)
    (events : List InteractionEvent) : List ℚ :=
  (events.map (fun e =>
    vscale (ratingWeight e.rating) ((lookupEmbedding catalog e.product_id).getD (vzero D)))).foldr
    vadd (vzero D)

/-- The spec's total absolute weight `Σ |weight_i|`. -/
def totalAbsWeight (events : List InteractionEvent) : ℚ :=
  (events.map (fun e => |ratingWeight e.rating|)).sum

theorem vadd_length (a b : List ℚ) : (vadd a b).length = min a.length b.length := by
  simp [vadd]

theorem vscale_length (c : ℚ) (v : List ℚ) : (vscale c v).length = v.length := by
  simp [vscale]

theorem vadd_assoc : ∀ a b c : List ℚ, vadd (vadd a b) c = vadd a (vadd b c)
  | [], _, _ => rfl
  | _ :: _, [], _ => rfl
  | _ :: _, _ :: _, [] => rfl
  | x :: xs, y :: ys, z :: zs => by
      show (x + y + z) :: vadd (vadd xs ys) zs = (x + (y + z)) :: vadd xs (vadd ys zs)
      rw [vadd_assoc xs ys zs, add_assoc]

theorem vzero_vadd : ∀ s : List ℚ, vadd (vzero s.length) s = s
  | [] => rfl
  | x :: xs => by
      show (0 + x) :: vadd (vzero xs.length) xs = x :: xs
      rw [vzero_vadd xs, zero_add]

theorem vadd_vzero : ∀ s : List ℚ, vadd s (vzero s.length) = s
  | [] => rfl
  | x :: xs => by
      show (x + 0) :: vadd xs (vzero xs.length) = x :: xs
      rw [vadd_vzero xs, add_zero]

theorem vscale_zero : ∀ v : List ℚ, vscale 0 v = vzero v.length
  | [] => rfl
  | x :: xs => by
      show (0 * x) :: vscale 0 xs = 0 :: vzero xs.length
      rw [vscale_zero xs, zero_mul]

theorem specWeightedSum_nil (D : Nat) (catalog : List Product) :
    specWeightedSum D catalog [] = vzero D := rfl

theorem specWeightedSum_cons (D : Nat) (catalog : List Product)
    (e : InteractionEvent) (es : List InteractionEvent) :
    specWeightedSum D catalog (e :: es)
      = vadd (vscale (ratingWeight e.rating)
            ((lookupEmbedding catalog e.product_id).getD (vzero D)))
          (specWeightedSum D catalog es) := rfl

theorem totalAbsWeight_nil : totalAbsWeight [] = 0 := rfl

theorem totalAbsWeight_cons (e : InteractionEvent) (es : List InteractionEvent) :
    totalAbsWeight (e :: es) = |ratingWeight e.rating| + totalAbsWeight es := by
  simp [totalAbsWeight]

theorem specWeightedSum_length (D : Nat) (catalog : List Product) :
    ∀ events : List InteractionEvent,
      (∀ e ∈ events, ∃ emb, lookupEmbedding catalog e.product_id = some emb ∧ emb.length = D) →
      (specWeightedSum D catalog events).length = D
  | [], _ => by simp [specWeightedSum_nil, vzero]
  | e :: es, h => by
      obtain ⟨emb, he, hlen⟩ := h e (List.mem_cons_self _ _)
      rw [specWeightedSum_cons, vadd_length, vscale_length, he, Option.getD_some, hlen,
        specWeightedSum_length D catalog es (fun e' he' => h e' (List.mem_cons_of_mem _ he'))]
      exact min_self D

theorem foldl_prefStep (catalog : List Product) (D : Nat) :
    ∀ (events : List InteractionEvent) (s : List ℚ) (t : ℚ),
      (∀ e ∈ events, ∃ emb, lookupEmbedding catalog e.product_id = some emb ∧ emb.length = D) →
      s.length = D →
      events.foldl (prefStep catalog) (s, t)
        = (vadd s (specWeightedSum D catalog events), t + totalAbsWeight events)
  | [], s, t, _, hs => by
      rw [List.foldl_nil, specWeightedSum_nil, totalAbsWeight_nil, add_zero, ← hs,
        vadd_vzero]
  | e :: es, s, t, h, hs => by
      obtain ⟨emb, he, hlen⟩ := h e (List.mem_cons_self _ _)
      have step1 : prefStep catalog (s, t) e
          = (vadd s (vscale (ratingWeight e.rating) emb), t + |ratingWeight e.rating|) := by
        simp [prefStep, he]
      rw [List.foldl_cons, step1,
        foldl_prefStep catalog D es _ _ (fun e' he' => h e' (List.mem_cons_of_mem _ he'))
          (by rw [vadd_length, vscale_length, hlen, hs]; exact min_self D),
        specWeightedSum_cons, he, Option.getD_some, vadd_assoc, totalAbsWeight_cons,
        add_assoc]

theorem compute_preference_vector_eq (D : Nat) (catalog : List Product)
    (events : List InteractionEvent)
    (hres : ∀ e ∈ events, ∃ emb, lookupEmbedding catalog e.product_id = some emb ∧ emb.length = D) :
    compute_preference_vector D catalog events
      = if totalAbsWeight events = 0 then none
        else some (vscale (1 / totalAbsWeight events) (specWeightedSum D catalog events)) := by
  unfold compute_preference_vector
  rw [foldl_prefStep catalog D events (vzero D) 0 hres (by simp [vzero]), zero_add]
  have hl : (specWeightedSum D catalog events).length = D :=
    specWeightedSum_length D catalog events hres
  have hz : vadd (vzero D) (specWeightedSum D catalog events)
      = specWeightedSum D catalog events := by
    rw [show vzero D = vzero (specWeightedSum D catalog events).length by rw [hl]]
    exact vzero_vadd _
  rw [hz]

/-- Demo product 1 for concrete witnesses. -/
def demoP1 : Product := ⟨"p1", [1, 0], "Demo One", "red", "tops", "10", "u1"⟩

/-- Demo product 2 for concrete witnesses. -/
def demoP2 : Product := ⟨"p2", [0, 1], "Demo Two", "blue", "dresses", "20", "u2"⟩

/-- Demo product 3 for concrete witnesses. -/
def demoP3 : Product := ⟨"p3", [1, 1], "Demo Three", "unknown", "tops", "30", "u3"⟩

/-- Demo catalog for concrete witnesses. -/
def demoCatalog : List Product := [demoP1, demoP2, demoP3]

/-- Demo interaction history: a love on p1 and a hate on p2. -/
def demoEvents : List InteractionEvent := [⟨"p1", 5⟩, ⟨"p2", 1⟩]

/-- C1: for a user with interactions, the preference vector equals
`Σ (weight_i × embedding_i) / Σ |weight_i|` over the user's events with
`weight = (rating - 3) / 2`, so ratings 1..5 map to -1, -1/2, 0, 1/2, 1,
rating-3 events contribute nothing to either sum, and the only scaling
applied is the division by `Σ |weight_i|` (no re-normalization to unit
length). -/
theorem C1_preference_vector_formula (D : Nat) (catalog : List Product)
    (events : List InteractionEvent)
    (hres : ∀ e ∈ events, ∃ emb, lookupEmbedding catalog e.product_id = some emb ∧ emb.length = D)
    (hnz : totalAbsWeight events ≠ 0) :
    compute_preference_vector D catalog events
      = some (vscale (1 / totalAbsWeight events) (specWeightedSum D catalog events))
    ∧ ratingWeight 1 = -1 ∧ ratingWeight 2 = -(1/2) ∧ ratingWeight 3 = 0
    ∧ ratingWeight 4 = 1/2 ∧ ratingWeight 5 = 1
    ∧ ∀ e : InteractionEvent, e.rating = 3 →
        (∃ emb, lookupEmbedding catalog e.product_id = some emb ∧ emb.length = D) →
        compute_preference_vector D catalog (e :: events)
          = compute_preference_vector D catalog events := by
  refine ⟨?_, by norm_num [ratingWeight], by norm_num [ratingWeight],
    by norm_num [ratingWeight], by norm_num [ratingWeight], by norm_num [ratingWeight], ?_⟩
  · rw [compute_preference_vector_eq D catalog events hres, if_neg hnz]
  · intro e h3 hee
    obtain ⟨emb, he, hlen⟩ := hee
    have hres2 : ∀ e' ∈ e :: events,
        ∃ emb, lookupEmbedding catalog e'.product_id = some emb ∧ emb.length = D := by
      intro e' he'
      rcases List.mem_cons.mp he' with h | h
      · exact h ▸ ⟨emb, he, hlen⟩
      · exact hres e' h
    have hw : ratingWeight e.rating = 0 := by rw [h3]; norm_num [ratingWeight]
    rw [compute_preference_vector_eq D catalog _ hres2,
      compute_preference_vector_eq D catalog events hres,
      totalAbsWeight_cons, hw, abs_zero, zero_add, specWeightedSum_cons, hw, vscale_zero,
      he, Option.getD_some, hlen]
    have hl : (specWeightedSum D catalog events).length = D :=
      specWeightedSum_length D catalog events hres
    rw [show vzero D = vzero (specWeightedSum D catalog events).length by rw [hl],
      vzero_vadd]

/-- Witness for C1: the demo user's preference vector is the spec formula
evaluated at the demo history. -/
theorem C1_witness :
    compute_preference_vector 2 demoCatalog demoEvents
      = some (vscale (1 / totalAbsWeight demoEvents) (specWeightedSum 2 demoCatalog demoEvents)) :=
  (C1_preference_vector_formula 2 demoCatalog demoEvents
    (by
      intro e he
      fin_cases he
      · exact ⟨[1, 0], rfl, rfl⟩
      · exact ⟨[0, 1], rfl, rfl⟩)
    (by norm_num [totalAbsWeight, demoEvents, ratingWeight])).1

/-- Error taxonomy of `record_interaction` (spec section 7). -/
inductive RecError where
  | UnknownProduct
  | InvalidRating
deriving DecidableEq, Repr

/-- The profile of a user with no recorded interaction yet. -/
def emptyProfile : UserProfile := ⟨[], []⟩

/-- In-memory per-user interaction state, keyed by user id. -/
abbrev Store := List (String × UserProfile)

/-- Fetch a user's profile; unknown users read as the empty profile. -/
def getProfile : Store → String → UserProfile
  | [], _ => emptyProfile
  | (u, q) :: rest, uid => if u = uid then q else getProfile rest uid

/-- Write back a user's profile, creating the entry on first write. -/
def setProfile : Store → String → UserProfile → Store
  | [], uid, p => [(uid, p)]
  | (u, q) :: rest, uid, p =>
      if u = uid then (u, p) :: rest else (u, q) :: setProfile rest uid p

/-- Modelled from the spec: `record_interaction(user_id, product_id, rating)`
(spec sections 4.1 and 6; `backend/api.py` and `recommendation_engine.py`
are not in the snapshot).  Validates the rating range and catalog
membership; on success appends one event, updates `rated_ids`, and reports
the user's total interaction count. -/
def record_interaction (catalog : List Product) (st : Store) (uid pid : String)
    (rating : ℤ) : Store × Except RecError Nat :=
  if rating < 1 ∨ 5 < rating then (st, Except.error RecError.InvalidRating)
  else if catalog.find? (fun p => p.id == pid) = none then
    (st, Except.error RecError.UnknownProduct)
  else
    let prof := getProfile st uid
    let newProf : UserProfile :=
      ⟨prof.events ++ [⟨pid, rating⟩],
        if pid ∈ prof.rated_ids then prof.rated_ids else prof.rated_ids ++ [pid]⟩
    (setProfile st uid newProf, Except.ok newProf.events.length)

theorem getProfile_setProfile :
    ∀ (st : Store) (uid : String) (p : UserProfile),
      getProfile (setProfile st uid p) uid = p
  | [], uid, p => by simp [setProfile, getProfile]
  | (u, q) :: rest, uid, p => by
      by_cases h : u = uid
      · simp [setProfile, getProfile, h]
      · simp [setProfile, getProfile, h, getProfile_setProfile rest uid p]

/-- C2: `record_interaction` rejects a rating outside 1..5 with
`InvalidRating` and an unknown product id with `UnknownProduct`, leaving
the store (hence the user's event list, `rated_ids`, and interaction
count) untouched in both cases; when both validations pass it appends
exactly one event, records the product id as rated, and reports the
user's new total interaction count. -/
theorem C2_record_interaction (catalog : List Product) (st : Store)
    (uid pid : String) (rating : ℤ) :
    (rating < 1 ∨ 5 < rating →
      record_interaction catalog st uid pid rating
        = (st, Except.error RecError.InvalidRating))
    ∧ (1 ≤ rating → rating ≤ 5 → catalog.find? (fun p => p.id == pid) = none →
      record_interaction catalog st uid pid rating
        = (st, Except.error RecError.UnknownProduct))
    ∧ (1 ≤ rating → rating ≤ 5 → catalog.find? (fun p => p.id == pid) ≠ none →
      (getProfile (record_interaction catalog st uid pid rating).1 uid).events
          = (getProfile st uid).events ++ [⟨pid, rating⟩]
        ∧ (record_interaction catalog st uid pid rating).2
            = Except.ok ((getProfile st uid).events.length + 1)
        ∧ pid ∈ (getProfile (record_interaction catalog st uid pid rating).1 uid).rated_ids) := by
  refine ⟨fun hbad => ?_, fun h1 h5 hnone => ?_, fun h1 h5 hsome => ?_⟩
  · rw [record_interaction, if_pos hbad]
  · rw [record_interaction, if_neg (by omega), if_pos hnone]
  · have hval : ¬(rating < 1 ∨ 5 < rating) := by omega
    rw [record_interaction, if_neg hval, if_neg hsome]
    refine ⟨?_, ?_, ?_⟩
    · rw [getProfile_setProfile]
    · simp
    · rw [getProfile_setProfile]
      by_cases hmem : pid ∈ (getProfile st uid).rated_ids
      · simp [hmem]
      · simp [hmem]

/-- Witness for C2: recording an interaction against a product id absent
from the demo catalog is rejected with `UnknownProduct` and leaves the
empty store unchanged. -/
theorem C2_witness :
    record_interaction demoCatalog [] "u1" "nope" 4
      = ([], Except.error RecError.UnknownProduct) :=
  (C2_record_interaction demoCatalog [] "u1" "nope" 4).2.1
    (by decide) (by decide) (by rfl)

/-- A product survives the rated-ids exclusion when its id was not rated. -/
def notRated (rated : List String) (p : Product) : Bool := !(rated.contains p.id)

/-- Lower-case a string character by character (the embedding of the
case-insensitive comparison the filter performs). -/
def lowerStr (s : String) : String := String.mk (s.data.map Char.toLower)

/-- Modelled from the spec: the color condition of CandidateFilter (spec
section 4.4) — an empty filter keeps everything, otherwise the product's
color must case-insensitively match a requested color and products with
color "unknown" are excluded. -/
def matchesColor (colors : List String) (p : Product) : Bool :=
  colors.isEmpty ||
    (!(p.color == "unknown") && colors.any (fun c => lowerStr c == lowerStr p.color))

/-- Modelled from the spec: the category condition of CandidateFilter
(spec section 4.4) — an empty filter keeps everything, otherwise the
product's category must case-insensitively match a requested category. -/
def matchesCategory (cats : List String) (p : Product) : Bool :=
  cats.isEmpty || cats.any (fun c => lowerStr c == lowerStr p.category)

/-- Modelled from the spec: CandidateFilter as the sequential pipeline the
README describes ("Filter out already-rated products; Apply color/category
filters"); `recommendation_engine.py` is not in the snapshot. -/
def candidateFilter (rated colors cats : List String) (l : List Product) : List Product :=
  ((l.filter (notRated rated)).filter (matchesColor colors)).filter (matchesCategory cats)

theorem filter_idem (f : Product → Bool) :
    ∀ l : List Product, (l.filter f).filter f = l.filter f
  | [] => rfl
  | x :: xs => by
      by_cases h : f x = true <;> simp [List.filter_cons, h, filter_idem f xs]

theorem candidateFilter_eq_filter (rated colors cats : List String) (l : List Product) :
    candidateFilter rated colors cats l
      = l.filter (fun p =>
          notRated rated p && (matchesColor colors p && matchesCategory cats p)) := by
  unfold candidateFilter
  rw [List.filter_filter, List.filter_filter]
  exact List.filter_congr (fun a _ => by
    cases h1 : notRated rated a <;> cases h2 : matchesColor colors a <;>
      cases h3 : matchesCategory cats a <;> simp [h1, h2, h3])

theorem notRated_iff (rated : List String) (p : Product) :
    notRated rated p = true ↔ p.id ∉ rated := by
  simp [notRated]

theorem matchesColor_iff (colors : List String) (p : Product) :
    matchesColor colors p = true ↔
      (colors = [] ∨ (p.color ≠ "unknown" ∧ ∃ c ∈ colors, lowerStr c = lowerStr p.color)) := by
  simp [matchesColor, List.isEmpty_iff]

theorem matchesCategory_iff (cats : List String) (p : Product) :
    matchesCategory cats p = true ↔
      (cats = [] ∨ ∃ c ∈ cats, lowerStr c = lowerStr p.category) := by
  simp [matchesCategory, List.isEmpty_iff]

/-- C7: CandidateFilter returns exactly the subsequence of the input, in
input order, of products whose id is not rated, whose color
case-insensitively matches the color filter when one is given (with
"unknown"-colored products excluded while a color filter is active), and
whose category case-insensitively matches the category filter when one is
given; both conditions apply when both filters are supplied. -/
theorem C7_candidate_filter (rated colors cats : List String) (l : List Product) :
    candidateFilter rated colors cats l
      = l.filter (fun p =>
          notRated rated p && (matchesColor colors p && matchesCategory cats p))
    ∧ (candidateFilter rated colors cats l).Sublist l
    ∧ (∀ p ∈ candidateFilter rated colors cats l,
        p.id ∉ rated
        ∧ (colors = [] ∨ (p.color ≠ "unknown" ∧ ∃ c ∈ colors, lowerStr c = lowerStr p.color))
        ∧ (cats = [] ∨ ∃ c ∈ cats, lowerStr c = lowerStr p.category))
    ∧ (∀ p ∈ l, p.id ∉ rated →
        (colors = [] ∨ (p.color ≠ "unknown" ∧ ∃ c ∈ colors, lowerStr c = lowerStr p.color)) →
        (cats = [] ∨ ∃ c ∈ cats, lowerStr c = lowerStr p.category) →
        p ∈ candidateFilter rated colors cats l) := by
  have heq := candidateFilter_eq_filter rated colors cats l
  refine ⟨heq, ?_, ?_, ?_⟩
  · rw [heq]; exact List.filter_sublist l
  · intro p hp
    rw [heq, List.mem_filter] at hp
    obtain ⟨-, hcond⟩ := hp
    rw [Bool.and_eq_true, Bool.and_eq_true] at hcond
    exact ⟨(notRated_iff rated p).mp hcond.1,
      (matchesColor_iff colors p).mp hcond.2.1,
      (matchesCategory_iff cats p).mp hcond.2.2⟩
  · intro p hp hr hc hk
    rw [heq, List.mem_filter]
    exact ⟨hp, by
      rw [Bool.and_eq_true, Bool.and_eq_true]
      exact ⟨(notRated_iff rated p).mpr hr, (matchesColor_iff colors p).mpr hc,
        (matchesCategory_iff cats p).mpr hk⟩⟩

/-- Witness for C7: the blue demo product survives a blue color filter
with p1 rated, and the survivor indeed satisfies all three conditions. -/
theorem C7_witness :
    demoP2.id ∉ ["p1"]
    ∧ ((["blue"] : List String) = []
        ∨ (demoP2.color ≠ "unknown" ∧ ∃ c ∈ (["blue"] : List String), lowerStr c = lowerStr demoP2.color))
    ∧ (([] : List String) = [] ∨ ∃ c ∈ ([] : List String), lowerStr c = lowerStr demoP2.category) :=
  (C7_candidate_filter ["p1"] ["blue"] [] demoCatalog).2.2.1 demoP2 (by decide)

/-- C8: CandidateFilter is idempotent — filtering its own output with the
same constraints returns the same list (the embedding is pure, so the
input list is never mutated). -/
theorem C8_filter_idempotent (rated colors cats : List String) (l : List Product) :
    candidateFilter rated colors cats (candidateFilter rated colors cats l)
      = candidateFilter rated colors cats l := by
  rw [candidateFilter_eq_filter rated colors cats l,
    candidateFilter_eq_filter rated colors cats, filter_idem,
    ← candidateFilter_eq_filter rated colors cats l]

/-- Modelled from the spec: the collection loop of
`_get_diverse_recommendations` (HYPERPARAMETERS.md section 3) — walk the
filtered catalog from position `i` in strides of `step`, collecting until
`n` items are gathered or the list runs out. -/
def sampleLoop (l : List Product) (step : Nat) : Nat → Nat → List Product
  | 0, _ => []
  | n + 1, i =>
      match l.get? i with
      | none => []
      | some x => x :: sampleLoop l step n (i + step)

/-- Modelled from the spec: ColdStartSampler — evenly spaced deterministic
sampling with `step = max(1, filtered_count / (n * 2))` starting at
index 0 (spec 4.6; HYPERPARAMETERS.md line 229 formula). -/
def coldStartSample (l : List Product) (n : Nat) : List Product :=
  sampleLoop l (max 1 (l.length / (n * 2))) n 0

theorem sampleLoop_eq_filterMap (l : List Product) (step : Nat) :
    ∀ n i, sampleLoop l step n i
      = (List.range n).filterMap (fun j => l.get? (i + j * step))
  | 0, i => rfl
  | n + 1, i => by
      rw [List.range_succ_eq_map, List.filterMap_cons]
      cases hi : l.get? i with
      | none =>
          have hnil : ∀ j ∈ (List.range n).map (· + 1), l.get? (i + j * step) = none := by
            intro j _
            refine List.get?_eq_none.mpr ?_
            have hlen : l.length ≤ i := List.get?_eq_none.mp hi
            exact hlen.trans (Nat.le_add_right i (j * step))
          simp only [sampleLoop, hi, Nat.zero_mul, Nat.add_zero]
          rw [List.filterMap_eq_nil_iff.mpr hnil]
      | some x =>
          have hmap : ((List.range n).map (· + 1)).filterMap (fun j => l.get? (i + j * step))
              = (List.range n).filterMap (fun j => l.get? ((i + step) + j * step)) := by
            rw [List.filterMap_map]
            refine List.filterMap_congr ?_
            intro j _
            have : i + (j + 1) * step = i + step + j * step := by ring
            simp [Function.comp, this]
          simp only [sampleLoop, hi, Nat.zero_mul, Nat.add_zero]
          rw [hmap, sampleLoop_eq_filterMap l step n (i + step)]

theorem coldStartSample_eq (l : List Product) (n : Nat) :
    coldStartSample l n
      = (List.range n).filterMap (fun j => l.get? (j * max 1 (l.length / (n * 2)))) := by
  rw [coldStartSample, sampleLoop_eq_filterMap]
  refine List.filterMap_congr ?_
  intro j _
  rw [Nat.zero_add]

theorem coldStartSample_length_le (l : List Product) (n : Nat) :
    (coldStartSample l n).length ≤ n := by
  rw [coldStartSample_eq]
  calc ((List.range n).filterMap _).length ≤ (List.range n).length :=
        List.length_filterMap_le _ _
    _ = n := List.length_range n

theorem coldStartSample_subset (l : List Product) (n : Nat) :
    ∀ x ∈ coldStartSample l n, x ∈ l := by
  intro x hx
  rw [coldStartSample_eq] at hx
  obtain ⟨j, -, hj⟩ := List.mem_filterMap.mp hx
  exact List.get?_mem hj

/-- C5: ColdStartSampler selects items deterministically at indices
0, step, 2·step, … with `step = max(1, filtered_count / (n × 2))` (integer
division), truncating when the filtered catalog runs out, and returns at
most `n` items, all drawn from the filtered catalog. -/
theorem C5_cold_start_sampler (l : List Product) (n : Nat) :
    coldStartSample l n
      = (List.range n).filterMap (fun j => l.get? (j * max 1 (l.length / (n * 2))))
    ∧ (coldStartSample l n).length ≤ n
    ∧ ∀ x ∈ coldStartSample l n, x ∈ l :=
  ⟨coldStartSample_eq l n, coldStartSample_length_le l n, coldStartSample_subset l n⟩

/-- Witness for C5: the first item sampled from the demo catalog is a
catalog member. -/
theorem C5_witness : demoP1 ∈ demoCatalog :=
  (C5_cold_start_sampler demoCatalog 2).2.2 demoP1 (by decide)

/-- Squared Euclidean distance between two equal-length vectors. -/
def dist2 (a b : List ℚ) : ℚ := (List.zipWith (fun x y => (x - y) ^ 2) a b).sum

theorem dist2_nonneg : ∀ a b : List ℚ, 0 ≤ dist2 a b
  | [], _ => by simp [dist2]
  | _ :: _, [] => by simp [dist2]
  | x :: xs, y :: ys => by
      have h := dist2_nonneg xs ys
      simp only [dist2, List.zipWith_cons_cons, List.sum_cons] at h ⊢
      exact add_nonneg (sq_nonneg _) h

/-- Rational pairwise similarity of two embeddings used by the MMR
diversity term: a bounded monotone transform of squared distance. -/
def pairSim (a b : List ℚ) : ℚ := 1 / (1 + dist2 a b)

/-- Modelled from the spec: greatest similarity of a candidate to the
already-selected set, 0 when nothing is selected yet (spec 4.5: "for the
first selection the second term is 0"). -/
def maxSimTo (selected : List (Product × ℚ)) (p : Product) : ℚ :=
  (selected.map (fun s => pairSim s.1.embedding p.embedding)).foldr max 0

/-- Modelled from the spec: the MMR objective
`mmr(c) = λ·relevance(c) − (1−λ)·max_sim_to_selected(c)`
(spec 4.5; HYPERPARAMETERS.md section 2 formula). -/
def mmrScore (lam : ℚ) (selected : List (Product × ℚ)) (c : Product × ℚ) : ℚ :=
  lam * c.2 - (1 - lam) * maxSimTo selected c.1

/-- Pick the candidate maximizing `f`; ties keep the earliest candidate.
Returns the pick and the remaining candidates in their original order. -/
def pickBest (f : Product × ℚ → ℚ) : List (Product × ℚ) →
    Option ((Product × ℚ) × List (Product × ℚ))
  | [] => none
  | c :: cs =>
      match pickBest f cs with
      | none => some (c, cs)
      | some (b, rest) => if f c < f b then some (b, c :: rest) else some (c, cs)

/-- Modelled from the spec: the greedy MMR selection loop of `_mmr_rerank`
(spec 4.5) — repeat up to `n` times, each time moving the
highest-`mmrScore` candidate into the selected list. -/
def mmrRerank (lam : ℚ) : Nat → List (Product × ℚ) → List (Product × ℚ) →
    List (Product × ℚ)
  | 0, _, _ => []
  | n + 1, selected, cands =>
      match pickBest (mmrScore lam selected) cands with
      | none => []
      | some (b, rest) => b :: mmrRerank lam n (b :: selected) rest

theorem mmrScore_one (selected : List (Product × ℚ)) (c : Product × ℚ) :
    mmrScore 1 selected c = c.2 := by
  unfold mmrScore; ring

theorem pickBest_mem (f : Product × ℚ → ℚ) :
    ∀ (l : List (Product × ℚ)) (b : Product × ℚ) (rest : List (Product × ℚ)),
      pickBest f l = some (b, rest) → b ∈ l
  | [], b, rest, h => by simp [pickBest] at h
  | c :: cs, b, rest, h => by
      rw [pickBest] at h
      split at h
      · simp only [Option.some.injEq, Prod.mk.injEq] at h
        exact h.1 ▸ List.mem_cons_self _ _
      · next b' rest' heq =>
          split at h <;> simp only [Option.some.injEq, Prod.mk.injEq] at h
          · exact List.mem_cons_of_mem _ (h.1 ▸ pickBest_mem f cs b' rest' heq)
          · exact h.1 ▸ List.mem_cons_self _ _

theorem pickBest_head (f : Product × ℚ → ℚ) (c : Product × ℚ)
    (cs : List (Product × ℚ)) (h : ∀ x ∈ cs, f x ≤ f c) :
    pickBest f (c :: cs) = some (c, cs) := by
  rw [pickBest]
  cases hcs : pickBest f cs with
  | none => rfl
  | some p =>
      obtain ⟨b, rest⟩ := p
      have hb : b ∈ cs := pickBest_mem f cs b rest hcs
      show (if f c < f b then some (b, c :: rest) else some (c, cs)) = some (c, cs)
      rw [if_neg (not_lt.mpr (h b hb))]

theorem mmrRerank_one (n : Nat) :
    ∀ (selected cands : List (Product × ℚ)),
      cands.Pairwise (fun a b => b.2 ≤ a.2) →
      mmrRerank 1 n selected cands = cands.take n := by
  induction n with
  | zero => intro selected cands _; simp [mmrRerank]
  | succ n ih =>
      intro selected cands hsorted
      cases cands with
      | nil => simp [mmrRerank, pickBest]
      | cons c cs =>
          rw [List.pairwise_cons] at hsorted
          have hpick : pickBest (mmrScore 1 selected) (c :: cs) = some (c, cs) :=
            pickBest_head _ c cs (fun x hx => by
              rw [mmrScore_one, mmrScore_one]; exact hsorted.1 x hx)
          rw [mmrRerank, hpick]
          show c :: mmrRerank 1 n (c :: selected) cs = List.take (n + 1) (c :: cs)
          rw [ih (c :: selected) cs hsorted.2, List.take_succ_cons]

/-- C4: with `lambda = 1` the diversity term of the MMR objective
vanishes, so the re-ranker returns exactly the first `n` candidates in
the input's pure relevance order (ties keep the earlier candidate, i.e.
the original relevance-then-catalog order). -/
theorem C4_mmr_lambda_one (cands : List (Product × ℚ)) (n : Nat)
    (hsorted : cands.Pairwise (fun a b => b.2 ≤ a.2)) :
    mmrRerank 1 n [] cands = cands.take n :=
  mmrRerank_one n [] cands hsorted

/-- Witness for C4: on a concrete relevance-sorted candidate list (with a
tie), λ = 1 re-ranking returns the first two candidates unchanged. -/
theorem C4_witness :
    mmrRerank 1 2 [] [(demoP1, (9 : ℚ)/10), (demoP2, 1/2), (demoP3, 1/2)]
      = [(demoP1, (9 : ℚ)/10), (demoP2, 1/2)] :=
  C4_mmr_lambda_one [(demoP1, (9 : ℚ)/10), (demoP2, 1/2), (demoP3, 1/2)] 2
    (by norm_num [List.pairwise_cons])

/-- Tag each catalog entry with its insertion position, starting at `i`. -/
def withIdx : Nat → List Product → List (Nat × Product)
  | _, [] => []
  | i, p :: ps => (i, p) :: withIdx (i + 1) ps

theorem withIdx_map_snd : ∀ (i : Nat) (l : List Product),
    (withIdx i l).map Prod.snd = l
  | _, [] => rfl
  | i, p :: ps => by
      show p :: (withIdx (i + 1) ps).map Prod.snd = p :: ps
      rw [withIdx_map_snd (i + 1) ps]

theorem withIdx_length : ∀ (i : Nat) (l : List Product),
    (withIdx i l).length = l.length
  | _, [] => rfl
  | i, p :: ps => by
      show (withIdx (i + 1) ps).length + 1 = ps.length + 1
      rw [withIdx_length (i + 1) ps]

/-- The output order of the similarity index: ascending squared distance,
ties broken by ascending catalog position. -/
def searchLE (a b : Nat × Product × ℚ) : Prop :=
  a.2.2 < b.2.2 ∨ (a.2.2 = b.2.2 ∧ a.1 ≤ b.1)

instance : DecidableRel searchLE := fun a b => by
  unfold searchLE
  infer_instance

instance : IsTotal (Nat × Product × ℚ) searchLE := ⟨by
  intro a b
  rcases lt_trichotomy a.2.2 b.2.2 with h | h | h
  · exact Or.inl (Or.inl h)
  · rcases Nat.le_total a.1 b.1 with h2 | h2
    · exact Or.inl (Or.inr ⟨h, h2⟩)
    · exact Or.inr (Or.inr ⟨h.symm, h2⟩)
  · exact Or.inr (Or.inl h)⟩

instance : IsTrans (Nat × Product × ℚ) searchLE := ⟨by
  intro a b c hab hbc
  rcases hab with h1 | ⟨h1, h1i⟩ <;> rcases hbc with h2 | ⟨h2, h2i⟩
  · exact Or.inl (h1.trans h2)
  · exact Or.inl (by rw [← h2]; exact h1)
  · exact Or.inl (by rw [h1]; exact h2)
  · exact Or.inr ⟨h1.trans h2, h1i.trans h2i⟩⟩

/-- Modelled from the spec: SimilarityIndex exhaustive search — squared
Euclidean distance of the query to every catalog embedding, sorted
ascending with ties broken by catalog insertion order (spec 4.3; FAISS
IndexFlatL2 searched with `k = ntotal`, HYPERPARAMETERS.md section 5). -/
def searchD2 (catalog : List Product) (q : List ℚ) : List (Nat × Product × ℚ) :=
  List.insertionSort searchLE
    ((withIdx 0 catalog).map (fun ip => (ip.1, ip.2, dist2 q ip.2.embedding)))

/-- The spec's similarity transform `similarity = 1 / (1 + distance)` over
real distances. -/
noncomputable def simScore (d : ℝ) : ℝ := 1 / (1 + d)

/-- Similarity score of a result whose squared distance is `s`: the
transform applied to the Euclidean distance `√s`. -/
noncomputable def scoreOfD2 (s : ℚ) : ℝ := simScore (Real.sqrt ((s : ℝ)))

/-- C3: the similarity index yields one result per catalog product (a
permutation of the indexed catalog carrying each product's squared
distance to the query), sorted by ascending distance with ties broken by
catalog insertion order (ascending squared distance orders exactly as
ascending distance since `√` is strictly monotone on the nonnegatives);
the similarity transform `1/(1+distance)` maps distance 0 to 1, lands in
`(0, 1]`, and is strictly decreasing in the distance. -/
theorem C3_similarity_index (catalog : List Product) (q : List ℚ) (s t : ℚ) (d e : ℝ)
    (hs : 0 ≤ s) (hst : s < t) (hd : 0 ≤ d) (hde : d < e) :
    List.Sorted searchLE (searchD2 catalog q)
    ∧ (searchD2 catalog q).Perm
        ((withIdx 0 catalog).map (fun ip => (ip.1, ip.2, dist2 q ip.2.embedding)))
    ∧ (searchD2 catalog q).length = catalog.length
    ∧ ((searchD2 catalog q).map (fun x => x.2.1)).Perm catalog
    ∧ (∀ x ∈ searchD2 catalog q, x.2.2 = dist2 q x.2.1.embedding)
    ∧ (∀ a b : List ℚ, 0 ≤ dist2 a b)
    ∧ scoreOfD2 0 = 1
    ∧ 0 < scoreOfD2 s ∧ scoreOfD2 s ≤ 1
    ∧ scoreOfD2 t < scoreOfD2 s
    ∧ Real.sqrt (s : ℝ) < Real.sqrt (t : ℝ)
    ∧ simScore e < simScore d := by
  have hperm : (searchD2 catalog q).Perm
      ((withIdx 0 catalog).map (fun ip => (ip.1, ip.2, dist2 q ip.2.embedding))) :=
    List.perm_insertionSort searchLE _
  have hsqrt : Real.sqrt (s : ℝ) < Real.sqrt (t : ℝ) :=
    Real.sqrt_lt_sqrt (by exact_mod_cast hs) (by exact_mod_cast hst)
  have hsq_nonneg : (0 : ℝ) ≤ Real.sqrt (s : ℝ) := Real.sqrt_nonneg _
  refine ⟨List.sorted_insertionSort searchLE _, hperm, ?_, ?_, ?_, dist2_nonneg, ?_, ?_, ?_, ?_,
    hsqrt, ?_⟩
  · rw [hperm.length_eq, List.length_map, withIdx_length]
  · have := hperm.map (fun x : Nat × Product × ℚ => x.2.1)
    refine this.trans ?_
    rw [List.map_map]
    have : ((fun x : Nat × Product × ℚ => x.2.1) ∘
        (fun ip : Nat × Product => (ip.1, ip.2, dist2 q ip.2.embedding)))
        = Prod.snd := rfl
    rw [this, withIdx_map_snd]
  · intro x hx
    have hx2 := hperm.mem_iff.mp hx
    obtain ⟨ip, -, rfl⟩ := List.mem_map.mp hx2
    rfl
  · rw [scoreOfD2, simScore]
    norm_num
  · rw [scoreOfD2, simScore]
    positivity
  · rw [scoreOfD2, simScore]
    rw [div_le_one (by linarith)]
    linarith
  · rw [scoreOfD2, scoreOfD2, simScore, simScore]
    exact one_div_lt_one_div_of_lt (by linarith) (by linarith)
  · rw [simScore, simScore]
    exact one_div_lt_one_div_of_lt (by linarith) (by linarith)

/-- Witness for C3: the search output over the demo catalog is sorted in
the index order. -/
theorem C3_witness : List.Sorted searchLE (searchD2 demoCatalog [1, 0]) :=
  (C3_similarity_index demoCatalog [1, 0] 0 1 0 1 (le_refl 0) (by norm_num) (le_refl 0)
    (by norm_num)).1

/-- One returned recommendation: the product plus an optional similarity
score — `none` models the field being absent (cold-start), distinguishable
from a present score of 0. -/
structure RecItem where
  product : Product
  score : Option ℚ
deriving DecidableEq, Repr

/-- Rational relevance attached to personalized results: the bounded
monotone transform of the squared distance to the preference vector. -/
def relQ (s : ℚ) : ℚ := 1 / (1 + s)

/-- The MMR trade-off parameter, default 0.7 (HYPERPARAMETERS.md section 2). -/
def mmrLambda : ℚ := 7 / 10

/-- Modelled from the spec: the `get_recommendations` orchestration (spec
4.7; `recommendation_engine.py` is not in the snapshot) — with a usable
preference vector: similarity search, then CandidateFilter, then MMR
re-ranking, attaching similarity scores; without one: ColdStartSampler
over the filtered catalog, attaching no scores. -/
def get_recommendations (D : Nat) (catalog : List Product) (prof : UserProfile)
    (colors cats : List String) (n : Nat) : List RecItem :=
  match compute_preference_vector D catalog prof.events with
  | some pref =>
      let results := searchD2 catalog pref
      let cands := candidateFilter prof.rated_ids colors cats (results.map (fun x => x.2.1))
      let scored := cands.map (fun p => (p, relQ (dist2 pref p.embedding)))
      (mmrRerank mmrLambda n [] scored).map (fun c => ⟨c.1, some c.2⟩)
  | none =>
      (coldStartSample (candidateFilter prof.rated_ids colors cats catalog) n).map
        (fun p => ⟨p, none⟩)

theorem totalAbsWeight_nonneg : ∀ events : List InteractionEvent, 0 ≤ totalAbsWeight events
  | [] => le_refl 0
  | e :: es => by
      rw [totalAbsWeight_cons]
      exact add_nonneg (abs_nonneg _) (totalAbsWeight_nonneg es)

theorem totalAbsWeight_zero_all : ∀ events : List InteractionEvent,
    totalAbsWeight events = 0 → ∀ e ∈ events, ratingWeight e.rating = 0
  | [], _, e, he => absurd he (List.not_mem_nil e)
  | e :: es, h, e', he' => by
      rw [totalAbsWeight_cons] at h
      have h1 : |ratingWeight e.rating| = 0 ∧ totalAbsWeight es = 0 := by
        constructor <;> nlinarith [abs_nonneg (ratingWeight e.rating), totalAbsWeight_nonneg es]
      rcases List.mem_cons.mp he' with rfl | hmem
      · exact abs_eq_zero.mp h1.1
      · exact totalAbsWeight_zero_all es h1.2 e' hmem

theorem foldl_prefStep_snd_of_zero (catalog : List Product) :
    ∀ (events : List InteractionEvent) (s : List ℚ) (t : ℚ),
      (∀ e ∈ events, ratingWeight e.rating = 0) →
      (events.foldl (prefStep catalog) (s, t)).2 = t
  | [], _, _, _ => rfl
  | e :: es, s, t, h => by
      rw [List.foldl_cons]
      have hw : ratingWeight e.rating = 0 := h e (List.mem_cons_self _ _)
      have hes := fun e' he' => h e' (List.mem_cons_of_mem _ he')
      cases hl : lookupEmbedding catalog e.product_id with
      | none =>
          have : prefStep catalog (s, t) e = (s, t) := by simp [prefStep, hl]
          rw [this]
          exact foldl_prefStep_snd_of_zero catalog es s t hes
      | some emb =>
          have : prefStep catalog (s, t) e
              = (vadd s (vscale (ratingWeight e.rating) emb), t) := by
            simp [prefStep, hl, hw]
          rw [this]
          exact foldl_prefStep_snd_of_zero catalog es _ t hes

theorem compute_preference_vector_eq_none (D : Nat) (catalog : List Product)
    (events : List InteractionEvent) (h0 : totalAbsWeight events = 0) :
    compute_preference_vector D catalog events = none := by
  unfold compute_preference_vector
  simp only []
  rw [foldl_prefStep_snd_of_zero catalog events (vzero D) 0
    (totalAbsWeight_zero_all events h0)]
  rfl

/-- C6: when the user's total absolute weight is zero (no events, or only
neutral ratings), `get_recommendations` takes the cold-start path: every
returned item carries no similarity score (`none`, distinguishable from a
zero score) and no returned item was already rated by the user. -/
theorem C6_cold_start_path (D : Nat) (catalog : List Product) (prof : UserProfile)
    (colors cats : List String) (n : Nat) (it : RecItem)
    (h0 : totalAbsWeight prof.events = 0)
    (hit : it ∈ get_recommendations D catalog prof colors cats n) :
    it.score = none ∧ it.product.id ∉ prof.rated_ids := by
  have hnone : compute_preference_vector D catalog prof.events = none :=
    compute_preference_vector_eq_none D catalog prof.events h0
  rw [get_recommendations, hnone] at hit
  obtain ⟨p, hp, rfl⟩ := List.mem_map.mp hit
  refine ⟨rfl, ?_⟩
  have hpf : p ∈ candidateFilter prof.rated_ids colors cats catalog :=
    coldStartSample_subset _ _ p hp
  rw [candidateFilter_eq_filter, List.mem_filter, Bool.and_eq_true, Bool.and_eq_true] at hpf
  exact (notRated_iff prof.rated_ids p).mp hpf.2.1

/-- Demo profile whose only event is a neutral rating on p1, with p1
recorded as rated. -/
def demoProfile3 : UserProfile := ⟨[⟨"p1", 3⟩], ["p1"]⟩

/-- Witness for C6: on the demo catalog the neutral-only user gets the
cold-start item p2 with no score, and p2 was not rated. -/
theorem C6_witness :
    (⟨demoP2, none⟩ : RecItem).score = none ∧ demoP2.id ∉ demoProfile3.rated_ids :=
  C6_cold_start_path 2 demoCatalog demoProfile3 [] [] 2 ⟨demoP2, none⟩
    (by norm_num [totalAbsWeight, demoProfile3, ratingWeight])
    (by
      rw [get_recommendations,
        compute_preference_vector_eq_none 2 demoCatalog demoProfile3.events
          (by norm_num [totalAbsWeight, demoProfile3, ratingWeight])]
      decide)

/-- Embedded from ProductDisplay.jsx: the ratings sent by the four rating
buttons, in on-screen order — Hate(1), Dislike(2), Like(4), Love(5). -/
def buttonRatings : List ℤ := [1, 2, 4, 5]

/-- Embedded from App.jsx `handleKeyDown`: ArrowRight sends 4, ArrowLeft
sends 2, ArrowUp sends 5, ArrowDown sends 1; other keys are ignored. -/
def handleKeyDown (key : String) : Option ℤ :=
  if key = "ArrowRight" then some 4
  else if key = "ArrowLeft" then some 2
  else if key = "ArrowUp" then some 5
  else if key = "ArrowDown" then some 1
  else none

/-- C9: every rating the frontend can submit is one of {1, 2, 4, 5} — the
four buttons send 1, 2, 4, 5 and the four arrow-key handlers send 4, 2,
5, 1 respectively — so the neutral rating 3 is never produced by the UI
and every UI-recorded interaction has a nonzero preference weight. -/
theorem C9_frontend_ratings :
    buttonRatings = [1, 2, 4, 5]
    ∧ (handleKeyDown "ArrowRight" = some 4 ∧ handleKeyDown "ArrowLeft" = some 2
        ∧ handleKeyDown "ArrowUp" = some 5 ∧ handleKeyDown "ArrowDown" = some 1)
    ∧ (∀ k r, handleKeyDown k = some r → r ∈ buttonRatings)
    ∧ (3 : ℤ) ∉ buttonRatings
    ∧ (∀ k, handleKeyDown k ≠ some 3)
    ∧ (∀ r ∈ buttonRatings, ratingWeight r ≠ 0) := by
  refine ⟨rfl, ⟨rfl, rfl, rfl, rfl⟩, ?_, by decide, ?_, ?_⟩
  · intro k r h
    unfold handleKeyDown at h
    split_ifs at h <;>
      simp only [Option.some.injEq] at h <;>
      subst h <;> decide
  · intro k h
    unfold handleKeyDown at h
    split_ifs at h <;> simp at h
  · intro r hr
    fin_cases hr <;> norm_num [ratingWeight]

/-- Witness for C9: the ArrowRight handler's rating 4 is among the button
ratings. -/
theorem C9_witness : (4 : ℤ) ∈ buttonRatings :=
  C9_frontend_ratings.2.2.1 "ArrowRight" 4 rfl

/-- Recommendation object as the frontend receives it: either similarity
field may be absent (`none` models a JavaScript undefined field). -/
structure FrontRec where
  similarity_kscore : Option ℚ
  similarity_score : Option ℚ
deriving DecidableEq, Repr

/-- JavaScript `Math.round`: round half toward positive infinity. -/
def jsRound (q : ℚ) : ℤ := ⌊q + 1 / 2⌋

/-- Embedded from ProductDisplay.jsx `getSimilarityPercentage`: a
percentage string from `similarity_kscore` when that field is defined,
the string "New" otherwise. -/
def getSimilarityPercentage (r : FrontRec) : String :=
  match r.similarity_kscore with
  | some s => toString (jsRound (s * 100)) ++ "%"
  | none => "New"

/-- Embedded from ProductDisplay.jsx `handleImageLoad`: the similarity-bar
width from `similarity_kscore` when defined, 100 otherwise. -/
def similarityWidth (r : FrontRec) : ℤ :=
  match r.similarity_kscore with
  | some s => jsRound (s * 100)
  | none => 100

/-- C10: the displayed match percentage is derived exclusively from
`similarity_kscore` — `getSimilarityPercentage` returns
`round(similarity_kscore × 100)` followed by "%" when that field is
defined and "New" otherwise, both display functions are invariant under
any change to a `similarity_score` field, and a recommendation carrying
only `similarity_score` is displayed as "New". -/
theorem C10_similarity_kscore_only :
    (∀ (r : FrontRec) (s : ℚ), r.similarity_kscore = some s →
        getSimilarityPercentage r = toString (jsRound (s * 100)) ++ "%")
    ∧ (∀ r : FrontRec, r.similarity_kscore = none → getSimilarityPercentage r = "New")
    ∧ (∀ (r : FrontRec) (v : Option ℚ),
        getSimilarityPercentage ⟨r.similarity_kscore, v⟩ = getSimilarityPercentage r
        ∧ similarityWidth ⟨r.similarity_kscore, v⟩ = similarityWidth r)
    ∧ (∀ v : Option ℚ, getSimilarityPercentage ⟨none, v⟩ = "New") := by
  refine ⟨?_, ?_, ?_, fun v => rfl⟩
  · intro r s h
    rw [getSimilarityPercentage, h]
  · intro r h
    rw [getSimilarityPercentage, h]
  · intro r v
    cases h : r.similarity_kscore <;>
      exact ⟨by rw [getSimilarityPercentage, getSimilarityPercentage, h],
        by rw [similarityWidth, similarityWidth, h]⟩

/-- Witness for C10: a recommendation carrying only a `similarity_score`
field (and no `similarity_kscore`) is displayed as "New". -/
theorem C10_witness :
    getSimilarityPercentage ⟨none, some ((9 : ℚ) / 10)⟩ = "New" :=
  C10_similarity_kscore_only.2.1 ⟨none, some ((9 : ℚ) / 10)⟩ rfl

end Cinder

